import Mathlib

/-!
Verification development for the font-size gatherer of the lighthouse repository
(src/lighthouse-core/gather/gatherers/seo/font-size.js).

The JavaScript source is shallowly embedded below.  JS numbers appearing here are
natural numbers or integers (no fractional values arise in the modelled code);
the value -Infinity produced by Math.max() on an empty argument list is modelled
by an explicit bottom element (JsNum.negInf), and the NaN produced by parseInt on
a digit-free string is modelled by Option.none.  JS undefined on optional values
is modelled by Option.none; out-of-range JS array reads (which yield undefined
and, where dereferenced, would throw) are modelled with explicit defaults and are
never exercised by the theorems.  Strings are Lean strings; the selector regexes
of the source are embedded as an explicit character scan implementing the
ECMAScript word-boundary semantics of the patterns used.
-/

/-! Constants from the top of font-size.js. -/

def FONT_SIZE_PROPERTY_NAME : String := "font-size"

def TEXT_NODE_BLOCK_LIST : List String := ["SCRIPT", "STYLE", "NOSCRIPT"]

def MINIMAL_LEGIBLE_FONT_SIZE_PX : Int := 12

def MAX_NODES_SOURCE_RULE_FETCHED : Nat := 50

def TEXT_NODE_TYPE : Int := 3

/-! Data model: the subset of the Chrome DevTools protocol shapes the file uses. -/

structure CSSProperty where
  name : String
  value : String
deriving DecidableEq

/-- Crdp CSS.CSSStyle, restricted to the fields font-size.js reads:
cssProperties, range and styleSheetId (range is kept abstract as a string tag). -/
structure CSSStyle where
  cssProperties : List CSSProperty
  range : Option String
  styleSheetId : Option Nat
deriving DecidableEq

structure Selector where
  text : String
deriving DecidableEq

structure SelectorList where
  selectors : List Selector
deriving DecidableEq

structure CSSRule where
  origin : String
  selectorList : SelectorList
  style : CSSStyle
deriving DecidableEq

/-- Crdp CSS.RuleMatch: a rule plus the indices of its selectors that matched. -/
structure RuleMatch where
  rule : CSSRule
  matchingSelectors : List Nat
deriving DecidableEq

inductive RuleType where
  | Inline : RuleType
  | Regular : RuleType
deriving DecidableEq

structure ParentRule where
  origin : String
  selectors : List Selector
deriving DecidableEq

/-- The NodeFontData cssRule shape built by the resolver: the type tag, the
spread style fields, and for Regular rules the parent-rule provenance. -/
structure EffectiveRule where
  type : RuleType
  style : CSSStyle
  parentRule : Option ParentRule
deriving DecidableEq

structure InheritedStyleEntry where
  inlineStyle : Option CSSStyle
  matchedCSSRules : List RuleMatch
deriving DecidableEq

/-- Crdp CSS.GetMatchedStylesForNodeResponse, restricted to the three fields the
resolver destructures.  The protocol marks matchedCSSRules and inherited as
optional; the source immediately defaults an absent value to the empty list, so
they are modelled as plain lists. -/
structure MatchedStylesResponse where
  inlineStyle : Option CSSStyle
  matchedCSSRules : List RuleMatch
  inherited : List InheritedStyleEntry
deriving DecidableEq

/-- The trimmed rule record fetchSourceRule returns for a failing node. -/
structure SourceRule where
  type : RuleType
  range : Option String
  styleSheetId : Option Nat
  parentRule : Option ParentRule
deriving DecidableEq

/-- Protocol DOM node as used here: nodeId, the optional parentId, the stable
backendNodeId and the node name. -/
structure DomNode where
  nodeId : Nat
  parentId : Option Nat
  backendNodeId : Nat
  nodeName : String
deriving DecidableEq

/-- Value stored in the backendIdsToPartialFontData map.  fontSize is the
parseInt result (none models NaN). -/
structure PartialFontData where
  fontSize : Option Int
  textLength : Nat
deriving DecidableEq

/-- One entry of the failing-node list built in afterPass.  cssRule is assigned
later by fetchFailingNodeSourceRules. -/
structure NodeFontData where
  node : DomNode
  textLength : Nat
  fontSize : Option Int
  cssRule : Option SourceRule
deriving DecidableEq

/-- A node of the body subtree together with its parent link.  The source
iterates nodes already filtered by nodeInBody, whose TypeScript type guarantees
the parent link is present, and pushes node.parentNode for failing entries. -/
structure BodyNode where
  self : DomNode
  parentNode : DomNode
deriving DecidableEq

/-! hasFontSizeDeclaration: !!style && !!style.cssProperties.find(p => p.name === FONT_SIZE_PROPERTY_NAME). -/

def hasFontSizeDeclaration (style : Option CSSStyle) : Bool :=
  match style with
  | none => false
  | some s => s.cssProperties.any (fun p => p.name == FONT_SIZE_PROPERTY_NAME)

/-! computeSelectorSpecificity.

The source splits the selector on single spaces and, per token, counts the
global matches of the regexes bs-hash[a-z0-9]+ and bs-dot[a-z0-9]+ (bs denoting
the word-boundary assertion) plus one type match when the token starts with a
lowercase letter.  Since hash and dot are not ECMAScript word characters, the
word boundary before them holds exactly when the preceding character is a word
character, so a match can never start at the beginning of a token or after a
non-word character.  scanMatches embeds that scan: it walks the token left to
right, remembering whether the previous character was a word character, and
counts the positions where the marker sits after a word character and before a
[a-z0-9] character.  This equals the non-overlapping global match count: a new
match would have to start at the marker, and no character inside a matched
[a-z0-9]+ run can be the marker, so skipping consumed runs changes nothing. -/

def isWordChar (c : Char) : Bool :=
  decide ('a' ≤ c ∧ c ≤ 'z') || decide ('A' ≤ c ∧ c ≤ 'Z') ||
  decide ('0' ≤ c ∧ c ≤ '9') || c == '_'

def isLowerOrDigit (c : Char) : Bool :=
  decide ('a' ≤ c ∧ c ≤ 'z') || decide ('0' ≤ c ∧ c ≤ '9')

def headLowerOrDigit (cs : List Char) : Bool :=
  match cs with
  | [] => false
  | r :: _ => isLowerOrDigit r

def scanMatches (marker : Char) (prevWord : Bool) (cs : List Char) : Nat :=
  match cs with
  | [] => 0
  | c :: rest =>
    (if c == marker && prevWord && headLowerOrDigit rest then 1 else 0) +
      scanMatches marker (isWordChar c) rest

/-- JS String.prototype.split with a single-space separator keeps empty pieces;
splitTokens mirrors it on character lists. -/
def splitTokens (cs : List Char) : List (List Char) :=
  match cs with
  | [] => [[]]
  | c :: rest =>
    if c == ' ' then [] :: splitTokens rest
    else
      match splitTokens rest with
      | t :: ts => (c :: t) :: ts
      | [] => [[c]]

def tokenIds (tok : List Char) : Nat := scanMatches '#' false tok

def tokenClasses (tok : List Char) : Nat := scanMatches '.' false tok

def tokenTypes (tok : List Char) : Nat :=
  match tok with
  | [] => 0
  | c :: _ => if decide ('a' ≤ c ∧ c ≤ 'z') then 1 else 0

def computeSelectorSpecificity (selector : String) : Nat :=
  min 9 (((splitTokens selector.data).map tokenIds).sum) * 100 +
  min 9 (((splitTokens selector.data).map tokenClasses).sum) * 10 +
  min 9 (((splitTokens selector.data).map tokenTypes).sum)

/-! findMostSpecificMatchedCSSRule. -/

/-- JS number values arising in the specificity fold: -Infinity or a natural. -/
inductive JsNum where
  | negInf : JsNum
  | num : Nat → JsNum
deriving DecidableEq

def jsLe (a b : JsNum) : Bool :=
  match a, b with
  | .negInf, _ => true
  | .num _, .negInf => false
  | .num x, .num y => decide (x ≤ y)

/-- Math.max of two values (ties resolved to the right argument; irrelevant for
equal values). -/
def jsMax (a b : JsNum) : JsNum :=
  if jsLe a b then b else a

/-- Math.max(...matchingSelectors.map(idx => computeSelectorSpecificity(rule.selectorList.selectors[idx].text)));
the spread of an empty list gives -Infinity.  Out-of-range indices (which would
throw in JS) are modelled by an empty selector text and never exercised. -/
def specOfMatch (m : RuleMatch) : JsNum :=
  ((m.matchingSelectors.map
      (fun idx =>
        JsNum.num (computeSelectorSpecificity
          ((m.rule.selectorList.selectors.getD idx ⟨""⟩).text)))).foldl
    jsMax JsNum.negInf)

def declaresFontSize (m : RuleMatch) : Bool :=
  hasFontSizeDeclaration (some m.rule.style)

/-- The source loop keeps the running maximum specificity and the current best
rule, updating on greater OR EQUAL so that the last tied rule wins.  The state
additionally records the list position of the stored rule, which the source
keeps implicitly as the identity of the stored object. -/
def findGo : List RuleMatch → Nat → JsNum × Option (RuleMatch × Nat) →
    JsNum × Option (RuleMatch × Nat)
  | [], _, st => st
  | m :: rest, pos, st =>
    if declaresFontSize m && jsLe st.1 (specOfMatch m) then
      findGo rest (pos + 1) (specOfMatch m, some (m, pos))
    else
      findGo rest (pos + 1) st

/-- Output built from the winning rule: type Regular, the spread style fields,
and the parent-rule provenance. -/
def regularOut (rule : CSSRule) : EffectiveRule :=
  { type := RuleType.Regular
    style := rule.style
    parentRule := some { origin := rule.origin, selectors := rule.selectorList.selectors } }

def findMostSpecificMatchedCSSRule (matchedCSSRules : List RuleMatch) : Option EffectiveRule :=
  match (findGo matchedCSSRules 0 (JsNum.negInf, none)).2 with
  | some (m, _) => some (regularOut m.rule)
  | none => none

/-! findInheritedCSSRule and getEffectiveFontRule. -/

/-- Output of an inline-style winner: type Inline plus the spread style fields. -/
def inlineOut (s : CSSStyle) : EffectiveRule :=
  { type := RuleType.Inline, style := s, parentRule := none }

def findInheritedCSSRule : List InheritedStyleEntry → Option EffectiveRule
  | [] => none
  | e :: rest =>
    if hasFontSizeDeclaration e.inlineStyle then e.inlineStyle.map inlineOut
    else
      match findMostSpecificMatchedCSSRule e.matchedCSSRules with
      | some directRule => some directRule
      | none => findInheritedCSSRule rest

/-- The per-ancestor body of the findInheritedCSSRule loop: inline first, then
the most specific matched rule. -/
def localWinnerEntry (e : InheritedStyleEntry) : Option EffectiveRule :=
  if hasFontSizeDeclaration e.inlineStyle then e.inlineStyle.map inlineOut
  else findMostSpecificMatchedCSSRule e.matchedCSSRules

def getEffectiveFontRule (r : MatchedStylesResponse) : Option EffectiveRule :=
  if hasFontSizeDeclaration r.inlineStyle then r.inlineStyle.map inlineOut
  else
    match findMostSpecificMatchedCSSRule r.matchedCSSRules with
    | some matchedRule => some matchedRule
    | none =>
      match findInheritedCSSRule r.inherited with
      | some inheritedRule => some inheritedRule
      | none => none

/-! getNodeTextLength and isNonEmptyTextNode. -/

/-- Trim of both ends on the character list. -/
def trimChars (cs : List Char) : List Char :=
  ((cs.dropWhile Char.isWhitespace).reverse.dropWhile Char.isWhitespace).reverse

/-- getNodeTextLength: !nodeValue ? 0 : nodeValue.trim().length.  The empty
string is falsy and trims to length 0, so the two branches coincide; ASCII
whitespace is trimmed, JS trim also removes some Unicode spaces, a difference
no theorem touches. -/
def getNodeTextLength (nodeValue : String) : Nat :=
  (trimChars nodeValue.data).length

def isNonEmptyTextNode (nodeType : Int) (nodeValue parentNodeName : String) : Bool :=
  nodeType == TEXT_NODE_TYPE &&
  !(TEXT_NODE_BLOCK_LIST.contains parentNodeName) &&
  getNodeTextLength nodeValue != 0

/-! The Snapshot Indexer of afterPass: join of the flattened snapshot arrays
with the layout-style arrays, producing backendId to PartialFontData. -/

/-- The parallel arrays of one snapshot document that the loop reads.  String
values are string-table indices; parentIndex may be -1 for the root. -/
structure SnapshotDoc where
  nodeType : List Int
  nodeName : List Int
  nodeValue : List Int
  parentIndex : List Int
  backendNodeId : List Nat
  layoutNodeIndex : List Int
  layoutStyles : List (List Int)
deriving DecidableEq

/-- lookup(index): snapshot.strings[index].  A JS read at a negative or
out-of-range index gives undefined, modelled by the empty string (never a
member of the block list, and of text length 0, matching the undefined flow). -/
def lookupString (strings : List String) (idx : Int) : String :=
  if 0 ≤ idx then strings.getD idx.toNat "" else ""

/-- Read of a JS number array at a possibly negative index; out of range gives
the supplied stand-in for undefined. -/
def intGetD (l : List Int) (i : Int) (d : Int) : Int :=
  if 0 ≤ i then l.getD i.toNat d else d

/-- The nodeIndexToStyleIndex Map: set(doc.layout.nodeIndex[i], i) for each i in
order, so the last write wins; get returns none when the key was never set. -/
def inverseGet (layoutNodeIndex : List Int) (q : Int) : Option Nat :=
  (List.range layoutNodeIndex.length).foldl
    (fun acc i => if layoutNodeIndex.getD i 0 == q then some i else acc) none

/-- The falsy test the source applies to the inverse-index lookup result:
!styleIndex is true for undefined AND for 0. -/
def jsFalsyNat (v : Option Nat) : Bool :=
  match v with
  | none => true
  | some 0 => true
  | some _ => false

/-- Map.prototype.set on an association list: overwrite an existing key in
place, else append. -/
def mapSet (m : List (Nat × PartialFontData)) (k : Nat) (v : PartialFontData) :
    List (Nat × PartialFontData) :=
  if m.any (fun p => p.1 == k) then
    m.map (fun p => if p.1 == k then (k, v) else p)
  else
    m ++ [(k, v)]

def mapGet (m : List (Nat × PartialFontData)) (k : Nat) : Option PartialFontData :=
  (m.find? (fun p => p.1 == k)).map (fun p => p.2)

/-- Digit run of parseInt: NaN (none) when no leading digit. -/
def parseDigits (cs : List Char) : Option Nat :=
  let ds := cs.takeWhile (fun c => decide ('0' ≤ c ∧ c ≤ '9'))
  if ds.isEmpty then none
  else some (ds.foldl (fun n c => n * 10 + (c.toNat - '0'.toNat)) 0)

/-- parseInt(s, 10): skip leading whitespace, optional sign, then the maximal
digit run; NaN (none) when no digit follows. -/
def parseIntTen (s : String) : Option Int :=
  match s.data.dropWhile Char.isWhitespace with
  | '-' :: rest => (parseDigits rest).map (fun n => -(n : Int))
  | '+' :: rest => (parseDigits rest).map (fun n => (n : Int))
  | cs => (parseDigits cs).map (fun n => (n : Int))

/-- The indexer loop of afterPass: for each flat-node position i, apply the
qualifying-text-node predicate, look the parent index up in the inverse index,
skip when the lookup is falsy (the !styleIndex test), else record fontSize and
textLength under the backend id. -/
def buildFontSizeMap (strings : List String) (doc : SnapshotDoc) :
    List (Nat × PartialFontData) :=
  (List.range doc.nodeType.length).foldl
    (fun acc i =>
      let nodeType := doc.nodeType.getD i 0
      let nodeValue := lookupString strings (doc.nodeValue.getD i (-1))
      let pIdx := doc.parentIndex.getD i (-1)
      let parentNodeName := lookupString strings (intGetD doc.nodeName pIdx (-1))
      if !isNonEmptyTextNode nodeType nodeValue parentNodeName then acc
      else
        let styleIndex := inverseGet doc.layoutNodeIndex pIdx
        if jsFalsyNat styleIndex then acc
        else
          let parentStyles := doc.layoutStyles.getD (styleIndex.getD 0) []
          let fontSizeStringId := parentStyles.getD 0 (-1)
          let fontSize := parseIntTen (lookupString strings fontSizeStringId)
          mapSet acc (doc.backendNodeId.getD i 0)
            { fontSize := fontSize, textLength := getNodeTextLength nodeValue })
    []

/-! The Tree Reconstructor: nodeMap and the nodeInBody parent-chain walk. -/

/-- The nodeMap of getAllNodesFromBody: set(node.nodeId, node) over the list
(last write wins), queried at a parentId that may be undefined. -/
def nodeMapGet (nodes : List DomNode) (key : Option Nat) : Option DomNode :=
  match key with
  | none => none
  | some pid =>
    nodes.foldl (fun acc n => if n.nodeId == pid then some n else acc) none

/-- nodeInBody with explicit recursion depth: the source recurses on
node.parentNode unboundedly; fuel counts the recursive calls made, and none
means the recursion has not produced an answer within that depth. -/
def nodeInBodyFuel (nodes : List DomNode) : Nat → Option DomNode → Option Bool
  | _, none => some false
  | 0, some _ => none
  | fuel + 1, some node =>
    if node.nodeName == "BODY" then some true
    else nodeInBodyFuel nodes fuel (nodeMapGet nodes node.parentId)

/-! The triage loop of afterPass: walk the body nodes, join against the
backendIdsToPartialFontData map, and accumulate the failing-node list plus the
total and failing text lengths. -/

/-- The test of fontSize against MINIMAL_LEGIBLE_FONT_SIZE_PX; a NaN fontSize
(none) compares false in JS. -/
def jsLtMinimal (fontSize : Option Int) : Bool :=
  match fontSize with
  | some v => decide (v < MINIMAL_LEGIBLE_FONT_SIZE_PX)
  | none => false

def triageGo (fontDataMap : List (Nat × PartialFontData)) :
    List BodyNode → List NodeFontData × Nat × Nat → List NodeFontData × Nat × Nat
  | [], acc => acc
  | bn :: rest, (failingNodes, totalTextLength, failingTextLength) =>
    match mapGet fontDataMap bn.self.backendNodeId with
    | none => triageGo fontDataMap rest (failingNodes, totalTextLength, failingTextLength)
    | some d =>
      if jsLtMinimal d.fontSize then
        triageGo fontDataMap rest
          (failingNodes ++
            [{ node := bn.parentNode, textLength := d.textLength,
               fontSize := d.fontSize, cssRule := none }],
           totalTextLength + d.textLength, failingTextLength + d.textLength)
      else
        triageGo fontDataMap rest
          (failingNodes, totalTextLength + d.textLength, failingTextLength)

def triage (fontDataMap : List (Nat × PartialFontData)) (nodes : List BodyNode) :
    List NodeFontData × Nat × Nat :=
  triageGo fontDataMap nodes ([], 0, 0)

/-! fetchFailingNodeSourceRules: the stable descending sort by textLength, the
cap, the per-node fetches and the aggregation. -/

/-- Stable insertion by descending textLength: an element passes those with
strictly greater textLength and lands before ties, matching the ES2019 stable
sort with the comparator on b.textLength - a.textLength. -/
def insertDesc (x : NodeFontData) : List NodeFontData → List NodeFontData
  | [] => [x]
  | y :: ys =>
    if x.textLength < y.textLength then y :: insertDesc x ys
    else x :: y :: ys

def sortDesc : List NodeFontData → List NodeFontData
  | [] => []
  | x :: xs => insertDesc x (sortDesc xs)

/-- fetchSourceRule: issue CSS.getMatchedStylesForNode for the node, resolve the
effective rule, and trim it to the SourceRule shape; the range and styleSheetId
picked off the result are the spread style fields of the winner. -/
def fetchSourceRule {ε : Type} (send : Nat → Except ε MatchedStylesResponse)
    (node : DomNode) : Except ε (Option SourceRule) := do
  let matchedRules ← send node.nodeId
  match getEffectiveFontRule matchedRules with
  | none => pure none
  | some sourceRule =>
    pure (some
      { type := sourceRule.type
        range := sourceRule.style.range
        styleSheetId := sourceRule.style.styleSheetId
        parentRule := sourceRule.parentRule })

/-- The body of the map over the capped failing nodes: await the fetch and
store its result in the cssRule field.  A rejection of the fetch propagates. -/
def processNode {ε : Type} (send : Nat → Except ε MatchedStylesResponse)
    (failingNode : NodeFontData) : Except ε NodeFontData := do
  let rule ← fetchSourceRule send failingNode.node
  pure { failingNode with cssRule := rule }

/-- fetchFailingNodeSourceRules: sort descending by textLength, cap at
MAX_NODES_SOURCE_RULE_FETCHED, fetch each source rule, await all of them
(a single rejection rejects the whole Promise.all), and sum the analyzed
text lengths. -/
def fetchFailingNodeSourceRules {ε : Type} (send : Nat → Except ε MatchedStylesResponse)
    (failingNodes : List NodeFontData) : Except ε (List NodeFontData × Nat) := do
  let analyzedFailingNodesData ←
    ((sortDesc failingNodes).take MAX_NODES_SOURCE_RULE_FETCHED).mapM (processNode send)
  pure (analyzedFailingNodesData,
    analyzedFailingNodesData.foldl (fun sum fn => sum + fn.textLength) 0)

/-- Forget the cssRule field: used to compare the analyzed entries with the
capped slice they were computed from. -/
def eraseRule (fn : NodeFontData) : NodeFontData :=
  { fn with cssRule := none }

/-! Concrete fixtures used by the theorems below. -/

/-- A style declaring font-size with the given value and no provenance. -/
def fsStyle (v : String) : CSSStyle :=
  { cssProperties := [{ name := "font-size", value := v }], range := none, styleSheetId := none }

/-- A matched rule with one selector, all of whose selectors matched. -/
def fsRuleMatch (sel : String) (v : String) : RuleMatch :=
  { rule :=
      { origin := "regular"
        selectorList := { selectors := [{ text := sel }] }
        style := fsStyle v }
    matchingSelectors := [0] }

/-- A font-size declaring matched rule whose matchingSelectors list is empty. -/
def emptySelRuleMatch : RuleMatch :=
  { rule :=
      { origin := "regular"
        selectorList := { selectors := [{ text := ".never" }] }
        style := fsStyle "8px" }
    matchingSelectors := [] }

/-- Snapshot fixture for the indexer: node 1 is a qualifying text node (type 3,
value hello, parent node 0 named BODY, backend id 42) and layout.nodeIndex
maps its parent to style-entry index 0 holding the string 10px. -/
def C1strings : List String := ["BODY", "hello", "10px", "#text", ""]

def C1doc : SnapshotDoc :=
  { nodeType := [1, 3]
    nodeName := [0, 3]
    nodeValue := [4, 1]
    parentIndex := [-1, 0]
    backendNodeId := [7, 42]
    layoutNodeIndex := [0]
    layoutStyles := [[2]] }

/-- One failing node whose matched-styles fetch will reject. -/
def failingC2 : NodeFontData :=
  { node := { nodeId := 5, parentId := none, backendNodeId := 50, nodeName := "P" }
    textLength := 4
    fontSize := some 10
    cssRule := none }

/-- A transport whose matched-styles command always rejects. -/
def sendFailC2 : Nat → Except String MatchedStylesResponse :=
  fun _ => Except.error "Protocol error"

/-- A node whose parent pointer is itself and whose name is not BODY. -/
def cyclicNode : DomNode :=
  { nodeId := 1, parentId := some 1, backendNodeId := 10, nodeName := "DIV" }

/-- Two matched rules with the same selector div, both declaring font-size:
equal specificity, so the tie-break is exercised. -/
def rmTieA : RuleMatch := fsRuleMatch "div" "10px"

def rmTieB : RuleMatch := fsRuleMatch "div" "11px"

/-- The inline style of the C5 scenario (font-size 10px). -/
def styleInline10 : CSSStyle := fsStyle "10px"

/-- The farther-ancestor inline style of the C6 scenario. -/
def styleInline20 : CSSStyle := fsStyle "20px"

/-- The C5 scenario response: inline font-size 10px plus a matched id rule
declaring font-size 20px. -/
def respC5 : MatchedStylesResponse :=
  { inlineStyle := some styleInline10
    matchedCSSRules := [fsRuleMatch "#id" "20px"]
    inherited := [] }

/-- Nearest ancestor of the C6 scenario: declares font-size inline. -/
def entNear : InheritedStyleEntry :=
  { inlineStyle := some styleInline10, matchedCSSRules := [] }

/-- Farther ancestor of the C6 scenario: also declares font-size inline. -/
def entFar : InheritedStyleEntry :=
  { inlineStyle := some styleInline20, matchedCSSRules := [] }

/-- The div and .a.b matched rules of the C9 scenario. -/
def rmDiv : RuleMatch := fsRuleMatch "div" "10px"

def rmDotAB : RuleMatch := fsRuleMatch ".a.b" "11px"

/-- A response with no styles at all, used by a transport that always succeeds. -/
def respEmpty : MatchedStylesResponse :=
  { inlineStyle := none, matchedCSSRules := [], inherited := [] }

def sendOkW : Nat → Except String MatchedStylesResponse :=
  fun _ => Except.ok respEmpty

/-- Shared parent element of the C7 fixture body nodes. -/
def parentW : DomNode :=
  { nodeId := 100, parentId := none, backendNodeId := 99, nodeName := "BODY" }

def bodyNodeW (i : Nat) : BodyNode :=
  { self := { nodeId := i, parentId := some 100, backendNodeId := i, nodeName := "#text" }
    parentNode := parentW }

/-- Font data of the C7 fixture: backend ids 1 and 2 fail (10px), id 3 passes. -/
def fontDataMapW : List (Nat × PartialFontData) :=
  [(1, { fontSize := some 10, textLength := 5 }),
   (2, { fontSize := some 10, textLength := 7 }),
   (3, { fontSize := some 14, textLength := 4 })]

def bodyNodesW : List BodyNode := [bodyNodeW 1, bodyNodeW 2, bodyNodeW 3]

/-- The failing-node list the C7 fixture triage produces. -/
def failingW : List NodeFontData :=
  [{ node := parentW, textLength := 5, fontSize := some 10, cssRule := none },
   { node := parentW, textLength := 7, fontSize := some 10, cssRule := none }]

/-- Nine id tokens, each a token carrying one id match and one type match. -/
def idTokens9 : String := "a#b a#b a#b a#b a#b a#b a#b a#b a#b"

/-- Ten id tokens of the same shape. -/
def idTokens10 : String := "a#b a#b a#b a#b a#b a#b a#b a#b a#b a#b"

/-! Helper lemmas about the findMostSpecificMatchedCSSRule loop. -/

theorem jsLe_negInf (b : JsNum) : jsLe JsNum.negInf b = true := rfl

theorem jsLe_refl (a : JsNum) : jsLe a a = true := by
  cases a <;> simp [jsLe]

theorem findGo_cons (m : RuleMatch) (rest : List RuleMatch) (pos : Nat)
    (st : JsNum × Option (RuleMatch × Nat)) :
    findGo (m :: rest) pos st =
      if declaresFontSize m && jsLe st.1 (specOfMatch m) then
        findGo rest (pos + 1) (specOfMatch m, some (m, pos))
      else findGo rest (pos + 1) st := rfl

theorem findGo_append (a b : List RuleMatch) (pos : Nat)
    (st : JsNum × Option (RuleMatch × Nat)) :
    findGo (a ++ b) pos st = findGo b (pos + a.length) (findGo a pos st) := by
  induction a generalizing pos st with
  | nil => simp [findGo]
  | cons m a' ih =>
    rw [List.cons_append, findGo_cons, findGo_cons]
    have harith : pos + 1 + a'.length = pos + (m :: a').length := by
      rw [List.length_cons]; omega
    by_cases hg : (declaresFontSize m && jsLe st.1 (specOfMatch m)) = true
    · rw [if_pos hg, if_pos hg, ih, harith]
    · rw [if_neg hg, if_neg hg, ih, harith]

/-- After processing a list the stored best is either unchanged or points into
the processed segment. -/
theorem findGo_best_cases (l : List RuleMatch) (pos : Nat)
    (st : JsNum × Option (RuleMatch × Nat)) :
    (findGo l pos st).2 = st.2 ∨
      ∃ m k, (findGo l pos st).2 = some (m, k) ∧ pos ≤ k ∧ k < pos + l.length := by
  induction l generalizing pos st with
  | nil => left; rfl
  | cons m rest ih =>
    rw [findGo_cons]
    by_cases hg : (declaresFontSize m && jsLe st.1 (specOfMatch m)) = true
    · rw [if_pos hg]
      rcases ih (pos + 1) (specOfMatch m, some (m, pos)) with h | ⟨m', k, h1, h2, h3⟩
      · right
        exact ⟨m, pos, by rw [h], le_refl pos, by rw [List.length_cons]; omega⟩
      · right
        exact ⟨m', k, h1, by omega, by rw [List.length_cons]; omega⟩
    · rw [if_neg hg]
      rcases ih (pos + 1) st with h | ⟨m', k, h1, h2, h3⟩
      · left; exact h
      · right; exact ⟨m', k, h1, by omega, by rw [List.length_cons]; omega⟩

/-- If the running maximum changed while processing a list, the stored best
points into the processed segment. -/
theorem findGo_grow_best (l : List RuleMatch) (pos : Nat)
    (st : JsNum × Option (RuleMatch × Nat)) (h : st.1 ≠ (findGo l pos st).1) :
    ∃ m k, (findGo l pos st).2 = some (m, k) ∧ pos ≤ k ∧ k < pos + l.length := by
  induction l generalizing pos st with
  | nil => exact absurd rfl h
  | cons m rest ih =>
    rw [findGo_cons] at h ⊢
    by_cases hg : (declaresFontSize m && jsLe st.1 (specOfMatch m)) = true
    · rw [if_pos hg] at h ⊢
      rcases findGo_best_cases rest (pos + 1) (specOfMatch m, some (m, pos)) with
        h2 | ⟨m', k, h1, hk1, hk2⟩
      · exact ⟨m, pos, by rw [h2], le_refl pos, by rw [List.length_cons]; omega⟩
      · exact ⟨m', k, h1, by omega, by rw [List.length_cons]; omega⟩
    · rw [if_neg hg] at h ⊢
      obtain ⟨m', k, h1, hk1, hk2⟩ := ih (pos + 1) st h
      exact ⟨m', k, h1, by omega, by rw [List.length_cons]; omega⟩

/-- A declaring rule whose specificity is at least the running maximum forces
the loop result to hold a stored best from the processed segment. -/
theorem findGo_selects (l : List RuleMatch) (m : RuleMatch)
    (hd : declaresFontSize m = true) :
    ∀ (pos : Nat) (st : JsNum × Option (RuleMatch × Nat)), m ∈ l →
      jsLe st.1 (specOfMatch m) = true →
      ∃ m' k, (findGo l pos st).2 = some (m', k) ∧ pos ≤ k ∧ k < pos + l.length := by
  induction l with
  | nil => intro pos st hm _; cases hm
  | cons a rest ih =>
    intro pos st hm hle
    rw [findGo_cons]
    by_cases hg : (declaresFontSize a && jsLe st.1 (specOfMatch a)) = true
    · rw [if_pos hg]
      rcases findGo_best_cases rest (pos + 1) (specOfMatch a, some (a, pos)) with
        h2 | ⟨m', k, h1, hk1, hk2⟩
      · exact ⟨a, pos, by rw [h2], le_refl pos, by rw [List.length_cons]; omega⟩
      · exact ⟨m', k, h1, by omega, by rw [List.length_cons]; omega⟩
    · rw [if_neg hg]
      rcases List.mem_cons.mp hm with rfl | hm'
      · exact absurd (by rw [hd, hle]; rfl) hg
      · obtain ⟨m', k, h1, hk1, hk2⟩ := ih (pos + 1) st hm' hle
        exact ⟨m', k, h1, by omega, by rw [List.length_cons]; omega⟩

/-- Claim C4: for every matched-rule list and every pair of font-size-declaring
rules in it with equal computed (maximum matching-selector) specificity, the
loop never settles on the earlier member of the pair: the stored best is some
other position, and findMostSpecificMatchedCSSRule returns exactly the rule at
the stored position.  The greater-or-equal update makes the later tied rule
overwrite the earlier one. -/
theorem spec_C4_tieFavorsLater (l₁ l₂ l₃ : List RuleMatch) (mi mj : RuleMatch)
    (di : declaresFontSize mi = true) (dj : declaresFontSize mj = true)
    (heq : specOfMatch mi = specOfMatch mj) :
    ∃ m k,
      (findGo (l₁ ++ mi :: (l₂ ++ mj :: l₃)) 0 (JsNum.negInf, none)).2 = some (m, k) ∧
      k ≠ l₁.length ∧
      findMostSpecificMatchedCSSRule (l₁ ++ mi :: (l₂ ++ mj :: l₃))
        = some (regularOut m.rule) := by
  set R := l₂ ++ mj :: l₃ with hR
  set st₁ := findGo l₁ 0 (JsNum.negInf, none) with hst₁
  have hsplit : findGo (l₁ ++ mi :: R) 0 (JsNum.negInf, none)
      = findGo (mi :: R) l₁.length st₁ := by
    rw [findGo_append, Nat.zero_add]
  by_cases hjs : jsLe st₁.1 (specOfMatch mi) = true
  · have hg : (declaresFontSize mi && jsLe st₁.1 (specOfMatch mi)) = true := by
      rw [di, hjs]; rfl
    have hstep : findGo (mi :: R) l₁.length st₁
        = findGo R (l₁.length + 1) (specOfMatch mi, some (mi, l₁.length)) := by
      rw [findGo_cons, if_pos hg]
    have hmem : mj ∈ R := by
      rw [hR]; exact List.mem_append_right l₂ (List.mem_cons_self mj l₃)
    have hle2 : jsLe (specOfMatch mi, some (mi, l₁.length)).1 (specOfMatch mj) = true := by
      show jsLe (specOfMatch mi) (specOfMatch mj) = true
      rw [heq]; exact jsLe_refl _
    obtain ⟨m', k, h1, hk1, _⟩ := findGo_selects R mj dj (l₁.length + 1) _ hmem hle2
    have hfull : (findGo (l₁ ++ mi :: R) 0 (JsNum.negInf, none)).2 = some (m', k) := by
      rw [hsplit, hstep]; exact h1
    exact ⟨m', k, hfull, by omega, by simp [findMostSpecificMatchedCSSRule, hfull]⟩
  · have hjs' : jsLe st₁.1 (specOfMatch mi) = false := by
      cases h : jsLe st₁.1 (specOfMatch mi)
      · rfl
      · exact absurd h hjs
    have hg : ¬((declaresFontSize mi && jsLe st₁.1 (specOfMatch mi)) = true) := by
      simp [hjs']
    have hstep : findGo (mi :: R) l₁.length st₁ = findGo R (l₁.length + 1) st₁ := by
      rw [findGo_cons, if_neg hg]
    have hne : st₁.1 ≠ JsNum.negInf := by
      intro h
      rw [h, jsLe_negInf] at hjs'
      exact Bool.noConfusion hjs'
    obtain ⟨m₀, k₀, h01, _, h03⟩ :=
      findGo_grow_best l₁ 0 (JsNum.negInf, none) (fun h => hne (Eq.symm h))
    rcases findGo_best_cases R (l₁.length + 1) st₁ with hc | ⟨m', k, h1, hk1, _⟩
    · have hfull : (findGo (l₁ ++ mi :: R) 0 (JsNum.negInf, none)).2 = some (m₀, k₀) := by
        rw [hsplit, hstep, hc, hst₁]; exact h01
      exact ⟨m₀, k₀, hfull, by omega, by simp [findMostSpecificMatchedCSSRule, hfull]⟩
    · have hfull : (findGo (l₁ ++ mi :: R) 0 (JsNum.negInf, none)).2 = some (m', k) := by
        rw [hsplit, hstep]; exact h1
      exact ⟨m', k, hfull, by omega, by simp [findMostSpecificMatchedCSSRule, hfull]⟩

/-- Claim C4 witness: two equal-specificity div rules; the loop stores the
later one (position 1, not position 0) and returns its Regular output. -/
theorem spec_C4_tieFavorsLater_witness :
    ∃ m k,
      (findGo (([] : List RuleMatch) ++ rmTieA :: (([] : List RuleMatch) ++ rmTieB :: ([] : List RuleMatch)))
          0 (JsNum.negInf, none)).2 = some (m, k) ∧
      k ≠ ([] : List RuleMatch).length ∧
      findMostSpecificMatchedCSSRule
          (([] : List RuleMatch) ++ rmTieA :: (([] : List RuleMatch) ++ rmTieB :: ([] : List RuleMatch)))
        = some (regularOut m.rule) :=
  spec_C4_tieFavorsLater [] [] [] rmTieA rmTieB (by decide) (by decide) (by decide)

/-- Claim C10: whenever some rule in the matched list declares font-size, the
function returns a rule; no non-emptiness of matchingSelectors is required,
since the empty maximum -Infinity still passes the greater-or-equal test
against the initial -Infinity. -/
theorem spec_C10_selectionTotal (matchedCSSRules : List RuleMatch)
    (h : ∃ m, m ∈ matchedCSSRules ∧ declaresFontSize m = true) :
    ∃ r, findMostSpecificMatchedCSSRule matchedCSSRules = some r := by
  obtain ⟨m, hm, hd⟩ := h
  obtain ⟨m', k, h1, _, _⟩ :=
    findGo_selects matchedCSSRules m hd 0 (JsNum.negInf, none) hm (jsLe_negInf _)
  exact ⟨regularOut m'.rule, by simp [findMostSpecificMatchedCSSRule, h1]⟩

/-- Claim C10 witness: a single font-size rule with an empty matchingSelectors
list is selected. -/
theorem spec_C10_selectionTotal_witness :
    (∃ r, findMostSpecificMatchedCSSRule [emptySelRuleMatch] = some r) ∧
    findMostSpecificMatchedCSSRule [emptySelRuleMatch]
      = some (regularOut emptySelRuleMatch.rule) :=
  ⟨spec_C10_selectionTotal [emptySelRuleMatch] ⟨emptySelRuleMatch, by decide, by decide⟩,
   by decide⟩

/-! Helper lemmas about splitTokens and the specificity sums. -/

theorem splitTokens_ne_nil (cs : List Char) : splitTokens cs ≠ [] := by
  induction cs with
  | nil => simp [splitTokens]
  | cons c rest ih =>
    simp only [splitTokens]
    split
    · simp
    · split
      · simp
      · simp

theorem splitTokens_append (a b : List Char) :
    splitTokens (a ++ ' ' :: b) = splitTokens a ++ splitTokens b := by
  induction a with
  | nil => simp [splitTokens]
  | cons c a' ih =>
    cases h : splitTokens a' with
    | nil => exact absurd h (splitTokens_ne_nil a')
    | cons t ts =>
      by_cases hc : (c == ' ') = true
      · simp only [List.cons_append, splitTokens, List.append_eq]
        rw [if_pos hc, if_pos hc, ih]
        simp
      · simp only [List.cons_append, splitTokens, List.append_eq]
        rw [if_neg hc, if_neg hc, ih, h]
        simp

theorem string_data_append (s t : String) : (s ++ t).data = s.data ++ t.data := by
  cases s; cases t; rfl

/-- Appending a further space-separated token never decreases the specificity:
the three category counts are sums over tokens, and each capped category is
monotone in its count. -/
theorem specificity_le_space_append (s t : String) :
    computeSelectorSpecificity s ≤ computeSelectorSpecificity (s ++ " " ++ t) := by
  have hsp : (" " : String).data = [' '] := rfl
  have hdata : (s ++ " " ++ t).data = s.data ++ ' ' :: t.data := by
    rw [string_data_append, string_data_append, hsp, List.append_assoc]
    rfl
  unfold computeSelectorSpecificity
  rw [hdata, splitTokens_append, List.map_append, List.map_append, List.map_append,
      List.sum_append, List.sum_append, List.sum_append]
  omega

/-- Each capped category contributes at most its weight times nine. -/
theorem specificity_le_999 (s : String) : computeSelectorSpecificity s ≤ 999 := by
  unfold computeSelectorSpecificity
  omega

/-- Claim C8: computeSelectorSpecificity never decreases when a token is
appended to the selector (in particular an id token); the per-category counts
are capped at 9 before weighting, so the ten-id-token selector scores the same
as the nine-id-token one, and no selector can exceed 999, so no category
overflows into the next weight position. -/
theorem spec_C8_monotoneCapped :
    (∀ s t : String, computeSelectorSpecificity s ≤ computeSelectorSpecificity (s ++ " " ++ t)) ∧
    computeSelectorSpecificity idTokens10 = computeSelectorSpecificity idTokens9 ∧
    computeSelectorSpecificity idTokens9 = 909 ∧
    (∀ s : String, computeSelectorSpecificity s ≤ 999) :=
  ⟨specificity_le_space_append, by decide, by decide, specificity_le_999⟩

/-- Claim C9 counterexample: the specificity of the selector .a.b is not 20.
The word boundary required before the dot fails at the start of the token, so
only .b is counted, giving 10. -/
theorem spec_C9_counterexample : ¬(computeSelectorSpecificity ".a.b" = 20) := by decide

/-- Claim C9 amended: div scores 1, .a.b scores 10 (only the .b occurrence has
a word character before its dot), and with both rules declaring font-size the
.a.b rule still wins the selection. -/
theorem spec_C9_amended :
    computeSelectorSpecificity "div" = 1 ∧
    computeSelectorSpecificity ".a.b" = 10 ∧
    findMostSpecificMatchedCSSRule [rmDiv, rmDotAB] = some (regularOut rmDotAB.rule) := by
  refine ⟨by decide, by decide, by decide⟩

/-- Claim C5: whenever the inline style declares font-size, getEffectiveFontRule
returns the Inline-tagged inline style, whatever the matched and inherited
entries contain. -/
theorem spec_C5_inlinePrecedence (r : MatchedStylesResponse) (s : CSSStyle)
    (hinline : r.inlineStyle = some s)
    (hdecl : hasFontSizeDeclaration (some s) = true) :
    getEffectiveFontRule r = some (inlineOut s) := by
  unfold getEffectiveFontRule
  rw [hinline]
  simp [hdecl]

/-- Claim C5 witness: inline font-size 10px beats a matched id rule with
font-size 20px; the result is tagged Inline. -/
theorem spec_C5_inlinePrecedence_witness :
    getEffectiveFontRule respC5 = some (inlineOut styleInline10) :=
  spec_C5_inlinePrecedence respC5 styleInline10 rfl (by decide)

/-- Claim C6: findInheritedCSSRule visits the nearest ancestor first; when the
per-ancestor inline-then-matched resolution of the nearest entry yields a rule,
that rule is the overall result whatever the farther entries contain. -/
theorem spec_C6_nearestAncestorWins (e : InheritedStyleEntry)
    (rest : List InheritedStyleEntry) (r : EffectiveRule)
    (h : localWinnerEntry e = some r) :
    findInheritedCSSRule (e :: rest) = some r := by
  unfold localWinnerEntry at h
  unfold findInheritedCSSRule
  by_cases hd : hasFontSizeDeclaration e.inlineStyle = true
  · rw [if_pos hd] at h ⊢
    exact h
  · rw [if_neg hd] at h ⊢
    simp [h]

/-- Claim C6 witness: the nearest ancestor declares font-size 10px inline, a
farther ancestor declares 20px; the nearest one wins. -/
theorem spec_C6_nearestAncestorWins_witness :
    findInheritedCSSRule [entNear, entFar] = some (inlineOut styleInline10) :=
  spec_C6_nearestAncestorWins entNear [entFar] (inlineOut styleInline10) (by decide)

/-- Claim C1: on the fixture snapshot, flat node 1 is a qualifying text node
and its parent maps to style-entry index 0 through the inverse index, yet the
falsy gate fires on some 0 and the node is left out of the backend-id map.
The claim requires the node to be included (only a missing lookup may skip),
so the source line testing !styleIndex is the defect. -/
theorem spec_C1_zeroStyleIndexSkipped :
    isNonEmptyTextNode (C1doc.nodeType.getD 1 0)
        (lookupString C1strings (C1doc.nodeValue.getD 1 (-1)))
        (lookupString C1strings (intGetD C1doc.nodeName (C1doc.parentIndex.getD 1 (-1)) (-1)))
      = true ∧
    inverseGet C1doc.layoutNodeIndex (C1doc.parentIndex.getD 1 (-1)) = some 0 ∧
    jsFalsyNat (some 0) = true ∧
    mapGet (buildFontSizeMap C1strings C1doc) 42 = none := by decide

/-- Claim C2: a single rejecting per-node fetch rejects the whole batch, since
the source awaits Promise.all over the per-node promises with no catch; the
claim requires the batch to succeed with that node's rule absent. -/
theorem spec_C2_fetchFailureRejectsBatch :
    fetchFailingNodeSourceRules sendFailC2 [failingC2] = Except.error "Protocol error" := rfl

/-- Claim C3: on a self-referential parent chain without BODY, the nodeInBody
recursion never produces an answer at any recursion depth; the source has no
depth cap or visited set, so the walk does not terminate, against the claim. -/
theorem spec_C3_cyclicWalkNeverAnswers :
    ∀ fuel : Nat, nodeInBodyFuel [cyclicNode] fuel (some cyclicNode) = none := by
  intro fuel
  induction fuel with
  | zero => rfl
  | succ n ih => exact ih

/-! Helper lemmas about the stable descending sort and the aggregation. -/

theorem insertDesc_perm (x : NodeFontData) (l : List NodeFontData) :
    (insertDesc x l).Perm (x :: l) := by
  induction l with
  | nil => exact List.Perm.refl _
  | cons y ys ih =>
    simp only [insertDesc]
    by_cases h : x.textLength < y.textLength
    · rw [if_pos h]
      exact (List.Perm.cons y ih).trans (List.Perm.swap x y ys)
    · rw [if_neg h]

theorem sortDesc_perm (l : List NodeFontData) : (sortDesc l).Perm l := by
  induction l with
  | nil => exact List.Perm.refl _
  | cons x xs ih =>
    unfold sortDesc
    exact (insertDesc_perm x (sortDesc xs)).trans (List.Perm.cons x ih)

theorem insertDesc_pairwise (x : NodeFontData) (l : List NodeFontData)
    (hl : l.Pairwise (fun a b => b.textLength ≤ a.textLength)) :
    (insertDesc x l).Pairwise (fun a b => b.textLength ≤ a.textLength) := by
  induction l with
  | nil => simp [insertDesc]
  | cons y ys ih =>
    simp only [insertDesc]
    rcases List.pairwise_cons.mp hl with ⟨hy, hys⟩
    by_cases h : x.textLength < y.textLength
    · rw [if_pos h]
      refine List.pairwise_cons.mpr ⟨?_, ih hys⟩
      intro z hz
      rcases List.mem_cons.mp ((insertDesc_perm x ys).mem_iff.mp hz) with rfl | hz'
      · exact Nat.le_of_lt h
      · exact hy z hz'
    · rw [if_neg h]
      refine List.pairwise_cons.mpr ⟨?_, hl⟩
      intro z hz
      rcases List.mem_cons.mp hz with rfl | hz'
      · exact Nat.le_of_not_lt h
      · exact Nat.le_trans (hy z hz') (Nat.le_of_not_lt h)

theorem sortDesc_pairwise (l : List NodeFontData) :
    (sortDesc l).Pairwise (fun a b => b.textLength ≤ a.textLength) := by
  induction l with
  | nil => simp [sortDesc]
  | cons x xs ih => exact insertDesc_pairwise x (sortDesc xs) ih

/-- Stability of the insertion: filtering on any fixed textLength commutes with
inserting, since an inserted element passes only strictly greater keys. -/
theorem insertDesc_filter (k : Nat) (x : NodeFontData) (l : List NodeFontData) :
    (insertDesc x l).filter (fun fn => fn.textLength == k)
      = if x.textLength == k then x :: l.filter (fun fn => fn.textLength == k)
        else l.filter (fun fn => fn.textLength == k) := by
  induction l with
  | nil => by_cases hx : (x.textLength == k) = true <;> simp [insertDesc, hx]
  | cons y ys ih =>
    by_cases h : x.textLength < y.textLength
    · have hstep : insertDesc x (y :: ys) = y :: insertDesc x ys := by
        rw [show insertDesc x (y :: ys)
            = if x.textLength < y.textLength then y :: insertDesc x ys else x :: y :: ys
          from rfl, if_pos h]
      by_cases hx : (x.textLength == k) = true
      · have hxk : x.textLength = k := by simpa using hx
        have hyk : ¬((y.textLength == k) = true) := by
          simp only [beq_iff_eq]
          omega
        rw [hstep]
        simp only [List.filter_cons, ih, hx, if_true, hyk, if_false]
        simp [hx, hyk]
      · rw [hstep]
        simp only [List.filter_cons, ih, hx, if_false]
        by_cases hy : (y.textLength == k) = true <;> simp [hy, hx]
    · have hstep : insertDesc x (y :: ys) = x :: y :: ys := by
        rw [show insertDesc x (y :: ys)
            = if x.textLength < y.textLength then y :: insertDesc x ys else x :: y :: ys
          from rfl, if_neg h]
      rw [hstep]
      by_cases hx : (x.textLength == k) = true <;> simp [List.filter_cons, hx]

theorem sortDesc_filter (k : Nat) (l : List NodeFontData) :
    (sortDesc l).filter (fun fn => fn.textLength == k)
      = l.filter (fun fn => fn.textLength == k) := by
  induction l with
  | nil => rfl
  | cons x xs ih =>
    unfold sortDesc
    rw [insertDesc_filter k x (sortDesc xs), ih]
    by_cases hx : (x.textLength == k) = true <;> simp [List.filter_cons, hx]

/-- The failing text length accumulated by the triage loop equals the sum of
the textLength values of the failing nodes it pushed. -/
theorem triageGo_sum (fontDataMap : List (Nat × PartialFontData)) (nodes : List BodyNode) :
    ∀ (f : List NodeFontData) (t ftl : Nat),
      ((triageGo fontDataMap nodes (f, t, ftl)).1.map (fun fn => fn.textLength)).sum + ftl
        = (f.map (fun fn => fn.textLength)).sum
            + (triageGo fontDataMap nodes (f, t, ftl)).2.2 := by
  induction nodes with
  | nil => intro f t ftl; simp [triageGo]
  | cons bn rest ih =>
    intro f t ftl
    cases hm : mapGet fontDataMap bn.self.backendNodeId with
    | none =>
      simp only [triageGo, hm]
      exact ih f t ftl
    | some d =>
      by_cases hf : jsLtMinimal d.fontSize = true
      · simp only [triageGo, hm, if_pos hf]
        have h1 := ih (f ++
          [{ node := bn.parentNode, textLength := d.textLength,
             fontSize := d.fontSize, cssRule := none }])
          (t + d.textLength) (ftl + d.textLength)
        rw [List.map_append, List.sum_append] at h1
        simp only [List.map_cons, List.map_nil, List.sum_cons, List.sum_nil] at h1
        omega
      · simp only [triageGo, hm, if_neg hf]
        exact ih f (t + d.textLength) ftl

theorem foldl_textLength_sum (l : List NodeFontData) :
    ∀ a : Nat, l.foldl (fun sum fn => sum + fn.textLength) a
      = a + (l.map (fun fn => fn.textLength)).sum := by
  induction l with
  | nil => intro a; simp
  | cons x xs ih =>
    intro a
    rw [List.foldl_cons, ih, List.map_cons, List.sum_cons]
    omega

theorem except_ok_bind {ε α β : Type} (a : α) (g : α → Except ε β) :
    (Except.ok a : Except ε α) >>= g = g a := rfl

theorem except_error_bind {ε α β : Type} (e : ε) (g : α → Except ε β) :
    (Except.error e : Except ε α) >>= g = Except.error e := rfl

/-- When every element maps to an ok value, mapM over Except is ok, with the
outputs related elementwise to the inputs. -/
theorem mapM_ok_of_forall_ok {ε α β : Type} (f : α → Except ε β) :
    ∀ l : List α, (∀ a ∈ l, ∃ b, f a = Except.ok b) →
      ∃ l', l.mapM f = Except.ok l'
        ∧ List.Forall₂ (fun a b => f a = Except.ok b) l l' := by
  intro l
  induction l with
  | nil => intro _; exact ⟨[], rfl, List.Forall₂.nil⟩
  | cons a l ih =>
    intro h
    obtain ⟨b, hb⟩ := h a (List.mem_cons_self a l)
    obtain ⟨l', hl', hf⟩ := ih (fun x hx => h x (List.mem_cons_of_mem a hx))
    refine ⟨b :: l', ?_, List.Forall₂.cons hb hf⟩
    rw [List.mapM_cons, hb, except_ok_bind, hl', except_ok_bind]
    rfl

theorem forall₂_map_eq {α β γ : Type} (g : α → γ) (g' : β → γ) :
    ∀ {l : List α} {l' : List β},
      List.Forall₂ (fun a b => g' b = g a) l l' → l'.map g' = l.map g := by
  intro l l' h
  induction h with
  | nil => rfl
  | cons hab htail ih => simp [List.map_cons, hab, ih]

/-- The per-node step only writes the cssRule field. -/
theorem processNode_ok_shape {ε : Type} (send : Nat → Except ε MatchedStylesResponse)
    (fn b : NodeFontData) (h : processNode send fn = Except.ok b) :
    b.textLength = fn.textLength ∧ eraseRule b = eraseRule fn := by
  unfold processNode at h
  cases hfs : fetchSourceRule send fn.node with
  | error e =>
    rw [hfs, except_error_bind] at h
    exact Except.noConfusion h
  | ok v =>
    rw [hfs, except_ok_bind] at h
    have hb : ({ fn with cssRule := v } : NodeFontData) = b := by
      exact Except.ok.inj h
    rw [← hb]
    exact ⟨rfl, rfl⟩

/-- With a transport that always answers, the per-node step always succeeds. -/
theorem processNode_ok {ε : Type} (send : Nat → Except ε MatchedStylesResponse)
    (hok : ∀ nid, ∃ resp, send nid = Except.ok resp) (fn : NodeFontData) :
    ∃ b, processNode send fn = Except.ok b := by
  obtain ⟨resp, hr⟩ := hok fn.node.nodeId
  unfold processNode fetchSourceRule
  rw [hr, except_ok_bind]
  cases hg : getEffectiveFontRule resp with
  | none =>
    exact ⟨{ fn with cssRule := none }, rfl⟩
  | some s =>
    exact ⟨{ fn with
      cssRule := some ⟨s.type, s.style.range, s.style.styleSheetId, s.parentRule⟩ }, rfl⟩

theorem take_map_sum_le (n : Nat) (l : List NodeFontData) :
    ((l.take n).map (fun fn => fn.textLength)).sum
      ≤ (l.map (fun fn => fn.textLength)).sum := by
  conv_rhs => rw [← List.take_append_drop n l]
  rw [List.map_append, List.sum_append]
  omega

/-- Claim C7: from any triage result, the fetch stage (with a transport that
answers every request) analyzes exactly min(cap, failingCount) nodes taken from
the stable descending-textLength sort of the failing nodes; the analyzed total
is the sum over the capped subset, the failing total is the sum over all
failing nodes, and the former never exceeds the latter.  The sort is a
permutation, descending in textLength, and stable: filtering on any fixed
textLength preserves the input order. -/
theorem spec_C7_budgetInvariant {ε : Type} (send : Nat → Except ε MatchedStylesResponse)
    (hok : ∀ nid, ∃ resp, send nid = Except.ok resp)
    (fontDataMap : List (Nat × PartialFontData)) (nodes : List BodyNode)
    (failing : List NodeFontData) (total failingTL : Nat)
    (ht : triage fontDataMap nodes = (failing, total, failingTL)) :
    ∃ analyzed : List NodeFontData,
      fetchFailingNodeSourceRules send failing
        = Except.ok (analyzed, (analyzed.map (fun fn => fn.textLength)).sum) ∧
      analyzed.length = min MAX_NODES_SOURCE_RULE_FETCHED failing.length ∧
      analyzed.map eraseRule
        = ((sortDesc failing).take MAX_NODES_SOURCE_RULE_FETCHED).map eraseRule ∧
      failingTL = (failing.map (fun fn => fn.textLength)).sum ∧
      (analyzed.map (fun fn => fn.textLength)).sum ≤ failingTL ∧
      (sortDesc failing).Perm failing ∧
      (sortDesc failing).Pairwise (fun a b => b.textLength ≤ a.textLength) ∧
      (∀ k, (sortDesc failing).filter (fun fn => fn.textLength == k)
          = failing.filter (fun fn => fn.textLength == k)) := by
  have hftl : failingTL = (failing.map (fun fn => fn.textLength)).sum := by
    have h0 := triageGo_sum fontDataMap nodes [] 0 0
    unfold triage at ht
    rw [ht] at h0
    simp at h0
    omega
  obtain ⟨analyzed, hmapm, hfa⟩ :=
    mapM_ok_of_forall_ok (processNode send)
      ((sortDesc failing).take MAX_NODES_SOURCE_RULE_FETCHED)
      (fun a _ => processNode_ok send hok a)
  have hshape := hfa.imp (fun a b hab => processNode_ok_shape send a b hab)
  have htl_eq : analyzed.map (fun fn => fn.textLength)
      = ((sortDesc failing).take MAX_NODES_SOURCE_RULE_FETCHED).map
          (fun fn => fn.textLength) :=
    forall₂_map_eq _ _ (hshape.imp (fun a b hab => hab.1))
  have herase_eq : analyzed.map eraseRule
      = ((sortDesc failing).take MAX_NODES_SOURCE_RULE_FETCHED).map eraseRule :=
    forall₂_map_eq _ _ (hshape.imp (fun a b hab => hab.2))
  have hlen := (List.Forall₂.length_eq hfa).symm
  have hfetch : fetchFailingNodeSourceRules send failing
      = Except.ok (analyzed, (analyzed.map (fun fn => fn.textLength)).sum) := by
    unfold fetchFailingNodeSourceRules
    rw [hmapm, except_ok_bind, foldl_textLength_sum analyzed 0, Nat.zero_add]
    rfl
  refine ⟨analyzed, hfetch, ?_, herase_eq, hftl, ?_, sortDesc_perm failing,
    sortDesc_pairwise failing, fun k => sortDesc_filter k failing⟩
  · rw [hlen, List.length_take, List.Perm.length_eq (sortDesc_perm failing)]
  · rw [hftl, htl_eq]
    have h1 := take_map_sum_le MAX_NODES_SOURCE_RULE_FETCHED (sortDesc failing)
    have h2 : ((sortDesc failing).map (fun fn => fn.textLength)).sum
        = (failing.map (fun fn => fn.textLength)).sum :=
      List.Perm.sum_eq (List.Perm.map _ (sortDesc_perm failing))
    omega

/-- Claim C7 witness: three body nodes of which two fail (textLengths 5 and 7);
the batch succeeds, both failing nodes are analyzed (min 50 2 = 2), the
analyzed order is descending by textLength, and the totals are 12 on both
sides. -/
theorem spec_C7_budgetInvariant_witness :
    ∃ analyzed : List NodeFontData,
      fetchFailingNodeSourceRules sendOkW failingW
        = Except.ok (analyzed, (analyzed.map (fun fn => fn.textLength)).sum) ∧
      analyzed.length = min MAX_NODES_SOURCE_RULE_FETCHED failingW.length ∧
      analyzed.map eraseRule
        = ((sortDesc failingW).take MAX_NODES_SOURCE_RULE_FETCHED).map eraseRule ∧
      (12 : Nat) = (failingW.map (fun fn => fn.textLength)).sum ∧
      (analyzed.map (fun fn => fn.textLength)).sum ≤ 12 ∧
      (sortDesc failingW).Perm failingW ∧
      (sortDesc failingW).Pairwise (fun a b => b.textLength ≤ a.textLength) ∧
      (∀ k, (sortDesc failingW).filter (fun fn => fn.textLength == k)
          = failingW.filter (fun fn => fn.textLength == k)) :=
  spec_C7_budgetInvariant sendOkW (fun _ => ⟨respEmpty, rfl⟩) fontDataMapW bodyNodesW
    failingW 16 12 (by decide)
